import Mathlib

/-!
Verification development for the Bot-Organizador repository.

The Python sources (`app/utils.py`, `app/chat.py`) are shallowly embedded:
texts are `List Char`, timestamps are natural numbers counting seconds since
an arbitrary epoch (a day is 86400 seconds, `datetime.replace(hour, minute,
second=0, microsecond=0)` becomes arithmetic on the day prefix of the
timestamp), and fallible operations return explicit outcome types.  The
third-party `dateparser` library and the LLM extraction calls are external
collaborators and enter the model as explicit oracle parameters.
-/

/-- Trailing/leading-whitespace strip, as Python `str.strip()`. -/
def stripText (l : List Char) : List Char :=
  ((l.dropWhile Char.isWhitespace).reverse.dropWhile Char.isWhitespace).reverse

/-- `text.lower().strip()` as done at the top of `parse_datetime_in_text`.
Lowering is ASCII-level, matching the characters the regexes care about. -/
def normText (l : List Char) : List Char :=
  stripText (l.map Char.toLower)

/-- Decimal value of a digit run (Python `int` on the matched group). -/
def digitsVal (l : List Char) : Nat :=
  l.foldl (fun a c => a * 10 + (c.toNat - 48)) 0

/-- Does `p` occur at the very start of `s`? (used to run the regexes). -/
def listStarts : List Char → List Char → Bool
  | [], _ => true
  | _ :: _, [] => false
  | p :: ps, c :: cs => p == c && listStarts ps cs

/-- Does `p` occur somewhere inside `s`?  Embeds Python's `p in s`. -/
def hasSub (p : List Char) : List Char → Bool
  | [] => listStarts p []
  | c :: cs => listStarts p (c :: cs) || hasSub p cs

/-- `\s+` : require at least one whitespace character, consume the whole run
(the pattern after it never starts with whitespace, so greedy = exact). -/
def spacesThen (s : List Char) : Option (List Char) :=
  match s with
  | [] => none
  | c :: cs => if c.isWhitespace then some (cs.dropWhile Char.isWhitespace) else none

/-- The time units of tier 1 of `parse_datetime_in_text`. -/
inductive TimeUnit where
  | seconds
  | minutes
  | hours
deriving DecidableEq

/-- Seconds in one unit (`timedelta(seconds/minutes/hours = n)`). -/
def unitSeconds : TimeUnit → Nat
  | .seconds => 1
  | .minutes => 60
  | .hours => 3600

/-- The unit alternation `(segundos?|minutos?|minuto|segundo|horas?|hora)`:
the branch taken only determines whether the match starts with
`seg`/`min`/`hora`, which is all the source inspects afterwards. -/
def unitAt (s : List Char) : Option TimeUnit :=
  if listStarts (("segundo").toList) s then some .seconds
  else if listStarts (("minuto").toList) s then some .minutes
  else if listStarts (("hora").toList) s then some .hours
  else none

/-- The amount alternation `(un|una|\d+)` of tier 1, every branch that can
match at this position in regex order, with what is left of the input after
it.  `un`/`una` read as 1; the digit branch takes the maximal run (a shorter
run would be followed by a digit, which `\s+` rejects anyway). -/
def amountAlts (s : List Char) : List (Nat × List Char) :=
  (if listStarts (("un").toList) s then [(1, s.drop 2)] else []) ++
  (if listStarts (("una").toList) s then [(1, s.drop 3)] else []) ++
  (if (s.takeWhile Char.isDigit).isEmpty then []
   else [(digitsVal (s.takeWhile Char.isDigit), s.drop (s.takeWhile Char.isDigit).length)])

/-- Continuation after the amount group of tier 1: `\s+` then the unit. -/
def tier1Cont (nr : Nat × List Char) : Option (Nat × TimeUnit) :=
  match spacesThen nr.2 with
  | none => none
  | some rest => (unitAt rest).map (fun u => (nr.1, u))

/-- Try tier 1's regex `en\s+(un|una|\d+)\s+(segundos?|...)` anchored at the
head of `s`, with the backtracking the alternation needs. -/
def tier1At (s : List Char) : Option (Nat × TimeUnit) :=
  match s with
  | 'e' :: 'n' :: rest =>
    match spacesThen rest with
    | none => none
    | some s1 => (amountAlts s1).findSome? tier1Cont
  | _ => none

/-- `re.search` of tier 1's pattern: leftmost position that matches. -/
def tier1Scan : List Char → Option (Nat × TimeUnit)
  | [] => none
  | c :: cs =>
    match tier1At (c :: cs) with
    | some r => some r
    | none => tier1Scan cs

/-- Try tier 2's regex `a las\s+(\d{1,2})(?:[:h](\d{2}))?\s*h?s?` anchored at
the head of `s`; yields (hour, minute), minute defaulting to 0 when the
optional `[:h]\d\d` group is absent.  Everything after the groups is
optional, so once `a las`, whitespace and a digit are found the match
succeeds. -/
def tier2At (s : List Char) : Option (Nat × Nat) :=
  match s with
  | 'a' :: ' ' :: 'l' :: 'a' :: 's' :: rest =>
    match spacesThen rest with
    | none => none
    | some s1 =>
      let ds := (s1.takeWhile Char.isDigit).take 2
      if ds.isEmpty then none
      else
        let s2 := s1.drop ds.length
        let minute :=
          match s2 with
          | sep :: a :: b :: _ =>
            if (sep == ':' || sep == 'h') && a.isDigit && b.isDigit then
              (a.toNat - 48) * 10 + (b.toNat - 48)
            else 0
          | _ => 0
        some (digitsVal ds, minute)
  | _ => none

/-- `re.search` of tier 2's pattern: leftmost position that matches. -/
def tier2Scan : List Char → Option (Nat × Nat)
  | [] => none
  | c :: cs =>
    match tier2At (c :: cs) with
    | some r => some r
    | none => tier2Scan cs

/-- Outcome of `parse_datetime_in_text`: a timestamp, `None`, or an
uncaught Python exception (`ValueError` from `datetime.replace`). -/
inductive ParseOutcome where
  | resolved (t : Nat)
  | unresolved
  | raised
deriving DecidableEq

/-- `"mañana" in lower or "ayer" in lower` (the explicit day names the
fallback adjustment refuses to touch). -/
def dayMarker (lower : List Char) : Bool :=
  hasSub (("mañana").toList) lower || hasSub (("ayer").toList) lower

/-- `any(x in lower for x in ["a las", ":", "hs"])`: the bare clock marker
check of the fallback adjustment. -/
def clockMarker (lower : List Char) : Bool :=
  hasSub (("a las").toList) lower || hasSub ((":").toList) lower ||
    hasSub (("hs").toList) lower

/-- Midnight of `now`'s calendar day. -/
def startOfDay (now : Nat) : Nat := (now / 86400) * 86400

/-- `utils.parse_datetime_in_text(text)`, with the moment `datetime.now()`
passed explicitly as `now` and the third-party `dateparser.parse` result
passed as the oracle `dateparserResult`.  `now.replace(hour=h, minute=m,
second=0, microsecond=0)` raises `ValueError` when `h > 23` or `m > 59`;
that uncaught exception is the `raised` outcome. -/
def parse_datetime_in_text (text : List Char) (now : Nat)
    (dateparserResult : Option Nat) : ParseOutcome :=
  let lower := normText text
  match tier1Scan lower with
  | some (n, u) => .resolved (now + n * unitSeconds u)
  | none =>
    match tier2Scan lower with
    | some (h, m) =>
      if h ≤ 23 && m ≤ 59 then
        let target := startOfDay now + h * 3600 + m * 60
        if target ≤ now then .resolved (target + 86400) else .resolved target
      else .raised
    | none =>
      match dateparserResult with
      | some dt =>
        if dt ≤ now && !dayMarker lower && clockMarker lower then
          .resolved (dt + 86400)
        else .resolved dt
      | none => .unresolved

example : parse_datetime_in_text (("en 5 minutos").toList) 1000 none =
    .resolved 1300 := by decide

example : parse_datetime_in_text (("en 0 minutos").toList) 1000 none =
    .resolved 1000 := by decide

example : parse_datetime_in_text (("a las 25").toList) 1000 none =
    .raised := by decide

example : parse_datetime_in_text (("a las 1").toList) 1000 none =
    .resolved 3600 := by decide

example : parse_datetime_in_text (("a las 0").toList) 1000 none =
    .resolved 86400 := by decide

example : parse_datetime_in_text (("hoy 10:30").toList) 100 (some 50) =
    .resolved (50 + 86400) := by decide

/-! ## Entity matcher (`delete_reminder_by_text` / `reschedule_reminder_by_text`) -/

/-- Character class `[\wáéíóúñ]` used by the tokenizing split
`re.split(r"[^\wáéíóúñ]+", lower)`. -/
def isWordCh (c : Char) : Bool :=
  c.isAlphanum || c == '_' || c == 'á' || c == 'é' || c == 'í' ||
    c == 'ó' || c == 'ú' || c == 'ñ'

/-- Splitter worker: `acc` holds the current token reversed. -/
def tokenizeAux : List Char → List Char → List (List Char)
  | [], acc => if acc.isEmpty then [] else [acc.reverse]
  | c :: rest, acc =>
    if isWordCh c then tokenizeAux rest (c :: acc)
    else if acc.isEmpty then tokenizeAux rest []
    else acc.reverse :: tokenizeAux rest []

/-- The (non-empty) tokens of `re.split(r"[^\wáéíóúñ]+", lower)`. -/
def tokenize (l : List Char) : List (List Char) := tokenizeAux l []

/-- `words = [w for w in re.split(...) if len(w) >= 4]` over `text.lower()`. -/
def wordsOf (text : List Char) : List (List Char) :=
  (tokenize (text.map Char.toLower)).filter (fun w => 4 ≤ w.length)

/-- A stored reminder.  `remindAt = none` models a record whose
`remind_datetime` field is missing or is not a parseable ISO string (the
source treats the two identically); `reminded` is the fired flag. -/
structure Reminder where
  title : List Char
  remindAt : Option Nat
  createdAt : Nat
  reminded : Bool
deriving DecidableEq

/-- `matches(r)`: some surviving token is a substring of the lowercased
title. -/
def entryMatches (ws : List (List Char)) (r : Reminder) : Bool :=
  ws.any (fun w => hasSub w (r.title.map Char.toLower))

/-- `[i for i, x in enumerate(l) if p(x)]`, starting the count at `i`. -/
def enumIdxWhere {α : Type} (p : α → Bool) : Nat → List α → List Nat
  | _, [] => []
  | i, a :: l =>
    if p a then i :: enumIdxWhere p (i + 1) l else enumIdxWhere p (i + 1) l

/-- Outcome of the fuzzy entity matcher. -/
inductive MatchOutcome where
  | noMatch
  | unique (i : Nat)
  | ambiguous (idxs : List Nat)
deriving DecidableEq

/-- The matching core shared by `delete_reminder_by_text` and
`reschedule_reminder_by_text`: tokenize the query, gather the indices of
matching entries, branch on how many there are. -/
def entityMatch (rs : List Reminder) (text : List Char) : MatchOutcome :=
  match enumIdxWhere (entryMatches (wordsOf text)) 0 rs with
  | [] => .noMatch
  | [i] => .unique i
  | ms => .ambiguous ms

/-! ## Priority fallback (`parse_task_nl`) -/

/-- `PRIORITY_WORDS` in Python dict insertion order. -/
def PRIORITY_WORDS : List (List Char × Nat) :=
  [(("urgente").toList, 3), (("importante").toList, 2),
   (("prioritario").toList, 2), (("alta").toList, 3),
   (("media").toList, 2), (("baja").toList, 1)]

/-- The priority computation of `parse_task_nl`: over `text.lower().strip()`,
walk the table in order and overwrite the priority on every substring hit
(`for w, p in PRIORITY_WORDS.items(): if w in lower: priority = p`),
starting from the default 1. -/
def parse_task_nl_priority (text : List Char) : Nat :=
  let lower := stripText (text.map Char.toLower)
  PRIORITY_WORDS.foldl (fun acc wp => if hasSub wp.1 lower then wp.2 else acc) 1

/-- Modelled from the spec: the value of the LAST priority keyword occurring
in the text by text position (default 1), the reading the claim asserts.
Scans the suffixes and keeps the hit at the rightmost starting position. -/
def lastKeywordByPosAux : List Char → Option Nat
  | [] => none
  | c :: cs =>
    match lastKeywordByPosAux cs with
    | some v => some v
    | none =>
      PRIORITY_WORDS.findSome?
        (fun wp => if listStarts wp.1 (c :: cs) then some wp.2 else none)

/-- Modelled from the spec: effective priority under the by-text-position
reading of the claim. -/
def prioritySpecByPosition (text : List Char) : Nat :=
  (lastKeywordByPosAux (stripText (text.map Char.toLower))).getD 1

/-- The value of the last entry, in table iteration order, whose keyword
occurs in the lowercased text (default 1) — what the fold actually
computes. -/
def lastTableOrderPriority (text : List Char) : Nat :=
  let lower := stripText (text.map Char.toLower)
  match (PRIORITY_WORDS.filter (fun wp => hasSub wp.1 lower)).getLast? with
  | some wp => wp.2
  | none => 1

/-! ## Tasks and users -/

/-- A stored task. -/
structure TaskItem where
  title : List Char
  priority : Nat
  notes : List Char
  createdAt : Nat
  done : Bool
  completedAt : Option Nat
deriving DecidableEq

instance : Inhabited TaskItem := ⟨⟨[], 1, [], 0, false, none⟩⟩

/-- History entries appended by the modelled operations. -/
inductive HistEntry where
  | reminderAdd (ts : Nat) (raw : List Char) (parsed : Reminder)
  | taskDone (ts : Nat) (title : List Char)
deriving DecidableEq

/-- One user record of the JSON document (`ensure_user`'s shape). -/
structure UserRec where
  tasks : List TaskItem
  reminders : List Reminder
  moods : List Nat
  history : List HistEntry
  lastAddedTask : Option Nat
deriving DecidableEq

/-- In-place update of position `n` (Python `l[n] = f(l[n])` on a checked
index; out-of-range leaves the list unchanged, a case the callers below
never reach). -/
def listModify {α : Type} : List α → Nat → (α → α) → List α
  | [], _, _ => []
  | a :: l, 0, f => f a :: l
  | a :: l, n + 1, f => a :: listModify l n f

/-! ## `ChatManager.mark_done` -/

inductive MarkOutcome where
  | outOfRange
  | marked (realIdx : Nat)
deriving DecidableEq

/-- `pending_indices`: positions of the not-done tasks, in order. -/
def pendingIdx (tasks : List TaskItem) : List Nat :=
  enumIdxWhere (fun t => ! t.done) 0 tasks

/-- `ChatManager.mark_done(user_id, idx)` on one user record, `datetime.now()`
passed as `now`.  The motivational message/count reread at the end of the
source only formats output and is not modelled. -/
def mark_done (user : UserRec) (now : Nat) (idx : Int) : MarkOutcome × UserRec :=
  let pids := pendingIdx user.tasks
  if idx < 1 ∨ (pids.length : Int) < idx then (.outOfRange, user)
  else
    let real := pids.getD (idx - 1).toNat 0
    (.marked real,
     { user with
       tasks := listModify user.tasks real
         (fun t => { t with done := true, completedAt := some now }),
       history := user.history ++
         [.taskDone now (user.tasks.getD real default).title] })

/-! ## `ChatManager.add_reminder_smart` -/

inductive AddOutcome where
  | noTimeExpr
  | parseFail
  | pastRejected (t : Nat)
  | added (r : Reminder)
  | raised
deriving DecidableEq

def defaultReminderTitle : List Char := ("Recordatorio").toList

/-- `ChatManager.add_reminder_smart(user_id, text)` on one user record.  The
LLM call `extract_reminder_smart` is an external collaborator: its extracted
title and time expression enter as oracle arguments (`none` = field absent
from its reply), as does the `dateparser` result used inside
`parse_datetime_in_text`. -/
def add_reminder_smart (user : UserRec) (now : Nat) (rawText : List Char)
    (extractedTitle : Option (List Char)) (extractedTimeExpr : Option (List Char))
    (dateparserResult : Option Nat) : AddOutcome × UserRec :=
  match extractedTimeExpr with
  | none => (.noTimeExpr, user)
  | some te =>
    match parse_datetime_in_text te now dateparserResult with
    | .raised => (.raised, user)
    | .unresolved => (.parseFail, user)
    | .resolved dt =>
      if dt ≤ now then (.pastRejected dt, user)
      else
        let r : Reminder := { title := extractedTitle.getD defaultReminderTitle,
                              remindAt := some dt, createdAt := now,
                              reminded := false }
        (.added r,
         { user with
           reminders := user.reminders ++ [r],
           history := user.history ++ [.reminderAdd now rawText r] })

/-! ## `ChatManager.reschedule_reminder_by_text` -/

inductive RescheduleOutcome where
  | emptyList
  | parseFail
  | pastTime
  | ambiguous (idxs : List Nat)
  | updated (i : Nat)
  | raised
deriving DecidableEq

/-- `ChatManager.reschedule_reminder_by_text(user_id, text)` on one user's
reminder list; `datetime.now()` is `now` and the `dateparser` result is the
oracle argument. -/
def reschedule_reminder_by_text (rs : List Reminder) (now : Nat)
    (text : List Char) (dateparserResult : Option Nat) :
    RescheduleOutcome × List Reminder :=
  if rs.isEmpty then (.emptyList, rs)
  else
    match parse_datetime_in_text text now dateparserResult with
    | .raised => (.raised, rs)
    | .unresolved => (.parseFail, rs)
    | .resolved dt =>
      if dt ≤ now then (.pastTime, rs)
      else
        match enumIdxWhere (entryMatches (wordsOf text)) 0 rs with
        | [] => (.updated (rs.length - 1),
                 listModify rs (rs.length - 1)
                   (fun r => { r with remindAt := some dt }))
        | [i] => (.updated i,
                  listModify rs i (fun r => { r with remindAt := some dt }))
        | ms => (.ambiguous ms, rs)

/-! ## `ChatManager.get_due_reminders` -/

/-- Is this reminder due?  Mirrors the loop body: a missing or unparseable
`remind_datetime` is not due, otherwise compare the parsed time to `now`. -/
def isDueB (now : Nat) (r : Reminder) : Bool :=
  match r.remindAt with
  | some t => decide (t ≤ now)
  | none => false

/-- One user's pass of the sweep loop: (due, remaining), both in original
order. -/
def sweepUser (now : Nat) : List Reminder → List Reminder × List Reminder
  | [] => ([], [])
  | r :: rest =>
    let (d, rem) := sweepUser now rest
    if isDueB now r then (r :: d, rem) else (d, r :: rem)

/-- `ChatManager.get_due_reminders()` over the whole document, `now` passed
explicitly.  Returns (due groups keyed by user id — only users with at least
one due reminder appear, matching `due.setdefault(uid, []).append(r)` —
and the updated document). -/
def get_due_reminders (db : List (String × List Reminder)) (now : Nat) :
    List (String × List Reminder) × List (String × List Reminder) :=
  match db with
  | [] => ([], [])
  | (uid, rs) :: rest =>
    let dr := sweepUser now rs
    let rest' := get_due_reminders rest now
    (if dr.1.isEmpty then rest'.1 else (uid, dr.1) :: rest'.1,
     (uid, dr.2) :: rest'.2)

example :
    entityMatch
      [⟨("dentist appointment").toList, some 10, 0, false⟩,
       ⟨("eye doctor appointment").toList, some 20, 0, false⟩]
      (("appointment").toList) = .ambiguous [0, 1] := by decide

example :
    entityMatch
      [⟨("dentist appointment").toList, some 10, 0, false⟩,
       ⟨("eye doctor appointment").toList, some 20, 0, false⟩]
      (("dentist").toList) = .unique 0 := by decide

example : parse_task_nl_priority (("baja urgente").toList) = 1 := by decide

example : prioritySpecByPosition (("baja urgente").toList) = 3 := by decide

instance : Inhabited Reminder := ⟨⟨[], none, 0, false⟩⟩

/-! ## Helper lemmas -/

/-- `listStarts` decides the "starts with" relation. -/
theorem listStarts_iff (p : List Char) : ∀ s, listStarts p s = true ↔ ∃ t, s = p ++ t := by
  induction p with
  | nil =>
    intro s
    simp [listStarts]
  | cons c ps ih =>
    intro s
    cases s with
    | nil => simp [listStarts]
    | cons d ds =>
      simp only [listStarts, Bool.and_eq_true, beq_iff_eq, ih, List.cons_append]
      constructor
      · rintro ⟨rfl, t, rfl⟩
        exact ⟨t, rfl⟩
      · rintro ⟨t, ht⟩
        injection ht with h1 h2
        exact ⟨h1.symm, t, h2⟩

/-- `hasSub` decides substring occurrence (Python's `p in s`). -/
theorem hasSub_iff (p : List Char) : ∀ s, hasSub p s = true ↔ ∃ l r, s = l ++ p ++ r := by
  intro s
  induction s with
  | nil =>
    simp only [hasSub, listStarts_iff]
    constructor
    · rintro ⟨t, ht⟩
      exact ⟨[], t, by simpa using ht⟩
    · rintro ⟨l, r, h⟩
      rcases l with _ | ⟨x, xs⟩
      · exact ⟨r, by simpa using h⟩
      · simp at h
  | cons c cs ih =>
    simp only [hasSub, Bool.or_eq_true, listStarts_iff, ih]
    constructor
    · rintro (⟨t, ht⟩ | ⟨l, r, rfl⟩)
      · exact ⟨[], t, by simpa using ht⟩
      · exact ⟨c :: l, r, by simp⟩
    · rintro ⟨l, r, h⟩
      rcases l with _ | ⟨x, xs⟩
      · exact Or.inl ⟨r, by simpa using h⟩
      · simp only [List.cons_append] at h
        injection h with h1 h2
        exact Or.inr ⟨xs, r, h2⟩

/-- Membership in the enumerated index list. -/
theorem enumIdxWhere_mem {α : Type} [Inhabited α] (p : α → Bool) :
    ∀ (l : List α) (i j : Nat),
      j ∈ enumIdxWhere p i l ↔
        i ≤ j ∧ j - i < l.length ∧ p (l.getD (j - i) default) = true := by
  intro l
  induction l with
  | nil => intro i j; simp [enumIdxWhere]
  | cons a l ih =>
    intro i j
    by_cases hp : p a
    · simp only [enumIdxWhere, hp, if_pos, List.mem_cons, ih]
      constructor
      · rintro (rfl | ⟨h1, h2, h3⟩)
        · simpa using hp
        · refine ⟨by omega, by simp; omega, ?_⟩
          have hji : j - i = (j - (i + 1)) + 1 := by omega
          rw [hji, List.getD_cons_succ]
          exact h3
      · rintro ⟨h1, h2, h3⟩
        rcases Nat.eq_or_lt_of_le h1 with rfl | hlt
        · exact Or.inl rfl
        · refine Or.inr ⟨by omega, by simp at h2 ⊢; omega, ?_⟩
          have hji : j - i = (j - (i + 1)) + 1 := by omega
          rw [hji, List.getD_cons_succ] at h3
          exact h3
    · simp only [enumIdxWhere, hp, if_neg, Bool.false_eq_true, not_false_iff, ih]
      constructor
      · rintro ⟨h1, h2, h3⟩
        refine ⟨by omega, by simp; omega, ?_⟩
        have hji : j - i = (j - (i + 1)) + 1 := by omega
        rw [hji, List.getD_cons_succ]
        exact h3
      · rintro ⟨h1, h2, h3⟩
        rcases Nat.eq_or_lt_of_le h1 with rfl | hlt
        · simp at h3
          exact absurd h3 hp
        · refine ⟨by omega, by simp at h2 ⊢; omega, ?_⟩
          have hji : j - i = (j - (i + 1)) + 1 := by omega
          rw [hji, List.getD_cons_succ] at h3
          exact h3

/-- Every enumerated index is at least the start index. -/
theorem enumIdxWhere_lb {α : Type} (p : α → Bool) :
    ∀ (l : List α) (i j : Nat), j ∈ enumIdxWhere p i l → i ≤ j := by
  intro l
  induction l with
  | nil => intro i j h; simp [enumIdxWhere] at h
  | cons a l ih =>
    intro i j h
    by_cases hp : p a
    · simp only [enumIdxWhere, hp, if_pos, List.mem_cons] at h
      rcases h with rfl | h
      · exact Nat.le_refl j
      · exact Nat.le_of_succ_le (ih (i + 1) j h)
    · simp only [enumIdxWhere, hp, Bool.false_eq_true, if_neg, not_false_iff] at h
      exact Nat.le_of_succ_le (ih (i + 1) j h)

/-- The enumerated indices are strictly increasing. -/
theorem enumIdxWhere_pairwise {α : Type} (p : α → Bool) :
    ∀ (l : List α) (i : Nat), List.Pairwise (· < ·) (enumIdxWhere p i l) := by
  intro l
  induction l with
  | nil => intro i; simp [enumIdxWhere]
  | cons a l ih =>
    intro i
    by_cases hp : p a
    · simp only [enumIdxWhere, hp, if_pos]
      refine List.Pairwise.cons ?_ (ih (i + 1))
      intro j hj
      exact Nat.lt_of_succ_le (enumIdxWhere_lb p l (i + 1) j hj)
    · simp only [enumIdxWhere, hp, Bool.false_eq_true, if_neg, not_false_iff]
      exact ih (i + 1)

/-- There are as many enumerated indices as filtered elements. -/
theorem enumIdxWhere_length {α : Type} (p : α → Bool) :
    ∀ (l : List α) (i : Nat), (enumIdxWhere p i l).length = (l.filter p).length := by
  intro l
  induction l with
  | nil => intro i; simp [enumIdxWhere]
  | cons a l ih =>
    intro i
    by_cases hp : p a
    · simp [enumIdxWhere, hp, List.filter, ih]
    · simp [enumIdxWhere, hp, List.filter, ih]

/-- The `k`-th enumerated index points at a satisfying element that has
exactly `k` satisfying elements strictly before it. -/
theorem enumIdxWhere_getElem {α : Type} (p : α → Bool) (d : α) :
    ∀ (l : List α) (i k j : Nat), (enumIdxWhere p i l)[k]? = some j →
      i ≤ j ∧ j - i < l.length ∧ p (l.getD (j - i) d) = true ∧
        ((l.take (j - i)).filter p).length = k := by
  intro l
  induction l with
  | nil => intro i k j h; simp [enumIdxWhere] at h
  | cons a l ih =>
    intro i k j h
    by_cases hp : p a
    · simp only [enumIdxWhere, hp, if_pos] at h
      cases k with
      | zero =>
        simp at h
        subst h
        refine ⟨Nat.le_refl i, by simp, ?_, ?_⟩
        · simpa using hp
        · simp
      | succ k =>
        rw [List.getElem?_cons_succ] at h
        obtain ⟨h1, h2, h3, h4⟩ := ih (i + 1) k j h
        have hji : j - i = (j - (i + 1)) + 1 := by omega
        refine ⟨by omega, by simp; omega, ?_, ?_⟩
        · rw [hji, List.getD_cons_succ]
          exact h3
        · rw [hji]
          simp only [List.take_succ_cons, List.filter_cons, hp, if_pos]
          simp [h4]
    · simp only [enumIdxWhere, hp, Bool.false_eq_true, if_neg, not_false_iff] at h
      obtain ⟨h1, h2, h3, h4⟩ := ih (i + 1) k j h
      have hji : j - i = (j - (i + 1)) + 1 := by omega
      refine ⟨by omega, by simp; omega, ?_, ?_⟩
      · rw [hji, List.getD_cons_succ]
        exact h3
      · rw [hji]
        simp only [List.take_succ_cons, List.filter_cons, hp, Bool.false_eq_true,
          if_neg, not_false_iff]
        exact h4

/-- Pointwise description of `listModify`. -/
theorem listModify_getElem {α : Type} (f : α → α) :
    ∀ (l : List α) (n i : Nat),
      (listModify l n f)[i]? = if i = n then (l[i]?).map f else l[i]? := by
  intro l
  induction l with
  | nil => intro n i; simp [listModify]
  | cons a l ih =>
    intro n i
    cases n with
    | zero =>
      cases i with
      | zero => simp [listModify]
      | succ i => simp [listModify]
    | succ n =>
      cases i with
      | zero => simp [listModify]
      | succ i =>
        simp only [listModify, List.getElem?_cons_succ]
        rw [ih n i]
        by_cases h : i = n
        · simp [h]
        · simp [h]

/-- `listModify` keeps the length. -/
theorem listModify_length {α : Type} (f : α → α) :
    ∀ (l : List α) (n : Nat), (listModify l n f).length = l.length := by
  intro l
  induction l with
  | nil => intro n; simp [listModify]
  | cons a l ih =>
    intro n
    cases n with
    | zero => simp [listModify]
    | succ n => simp [listModify, ih]

/-- One sweep pass is the order-preserving partition by dueness. -/
theorem sweepUser_eq (now : Nat) :
    ∀ rs : List Reminder,
      sweepUser now rs =
        (rs.filter (isDueB now), rs.filter (fun r => ! isDueB now r)) := by
  intro rs
  induction rs with
  | nil => simp [sweepUser]
  | cons r rest ih =>
    by_cases h : isDueB now r
    · simp [sweepUser, ih, h, List.filter_cons]
    · simp [sweepUser, ih, h, List.filter_cons]

/-- `get_due_reminders` componentwise: due groups are the per-user due
filters (users with none omitted), the new document keeps the rest. -/
theorem get_due_reminders_eq (now : Nat) :
    ∀ db : List (String × List Reminder),
      get_due_reminders db now =
        ((db.map (fun p => (p.1, p.2.filter (isDueB now)))).filter
            (fun p => !p.2.isEmpty),
         db.map (fun p => (p.1, p.2.filter (fun r => ! isDueB now r)))) := by
  intro db
  induction db with
  | nil => simp [get_due_reminders]
  | cons p rest ih =>
    obtain ⟨uid, rs⟩ := p
    simp only [get_due_reminders, sweepUser_eq, ih, List.map_cons, List.filter_cons]
    by_cases h : (rs.filter (isDueB now)).isEmpty
    · simp [h]
    · simp [h]

/-- The overwrite fold of `parse_task_nl` computes the value of the last
table entry whose keyword occurs. -/
theorem foldl_priority_eq (lower : List Char) :
    ∀ (tbl : List (List Char × Nat)) (init : Nat),
      tbl.foldl (fun acc wp => if hasSub wp.1 lower then wp.2 else acc) init =
        (match (tbl.filter (fun wp => hasSub wp.1 lower)).getLast? with
         | some wp => wp.2
         | none => init) := by
  intro tbl
  induction tbl with
  | nil => intro init; simp
  | cons e rest ih =>
    intro init
    by_cases h : hasSub e.1 lower
    · simp only [List.foldl_cons, List.filter_cons, h, if_true]
      rw [ih e.2]
      cases hf : rest.filter (fun wp => hasSub wp.1 lower) with
      | nil => simp
      | cons x xs =>
        rw [List.getLast?_cons_cons]
        cases hg : (x :: xs).getLast? with
        | none => exact absurd (List.getLast?_eq_none_iff.mp hg) (List.cons_ne_nil x xs)
        | some v => rfl
    · rw [Bool.not_eq_true] at h
      simp only [List.foldl_cons, List.filter_cons, h, Bool.false_eq_true, if_false]
      exact ih init

/-! ## Claim theorems -/

/-- C4 (counterexample): on "baja urgente" the fallback parser yields
priority 1 (the table's last matching entry is "baja"), while the last
priority keyword by text position is "urgente", value 3 — the claim as
stated is false. -/
theorem priority_position_counterexample :
    parse_task_nl_priority (("baja urgente").toList) = 1 ∧
    prioritySpecByPosition (("baja urgente").toList) = 3 ∧
    parse_task_nl_priority (("baja urgente").toList) ≠
      prioritySpecByPosition (("baja urgente").toList) := by decide

/-- C4 (amended): the fallback task parser returns the value of the last
entry in the priority table's iteration order (urgente, importante,
prioritario, alta, media, baja) whose keyword occurs as a substring of the
lowercased text, or 1 if no keyword occurs. -/
theorem priority_last_table_order (text : List Char) :
    parse_task_nl_priority text = lastTableOrderPriority text := by
  unfold parse_task_nl_priority lastTableOrderPriority
  exact foldl_priority_eq (stripText (text.map Char.toLower)) PRIORITY_WORDS 1

/-- C9: "a las 25" is matched by the tier-2 clock pattern with hour 25, and
the resolver ends in the uncaught `ValueError` of `datetime.replace` instead
of returning a timestamp or `None` — it is not total. -/
theorem resolver_raises_on_invalid_hour :
    tier2Scan (normText (("a las 25").toList)) = some (25, 0) ∧
    parse_datetime_in_text (("a las 25").toList) 0 none = .raised := by decide

/-- C2 (counterexample): "en 0 minutos" is accepted by tier 1 (count 0) and
resolves to exactly `now`, not strictly past it; moreover "a las 25" is
accepted by tier 2's pattern but raises instead of returning a future
timestamp. -/
theorem resolver_tier1_zero_counterexample :
    tier1Scan (normText (("en 0 minutos").toList)) = some (0, TimeUnit.minutes) ∧
    parse_datetime_in_text (("en 0 minutos").toList) 5000 none = .resolved 5000 ∧
    parse_datetime_in_text (("a las 25").toList) 5000 none = .raised := by decide

/-- C2 (amended): tier-1 inputs with a positive count and tier-2 inputs with
a valid clock time (hour ≤ 23, minute ≤ 59) resolve to a timestamp strictly
greater than `now`; and the resolver returns `unresolved` exactly when no
tier matches (tier 1 fails, tier 2 fails, and the fallback parser returns
nothing). -/
theorem resolver_tiers_future (text : List Char) (now : Nat) (fb : Option Nat) :
    (∀ n u, tier1Scan (normText text) = some (n, u) → 0 < n →
      ∃ t, parse_datetime_in_text text now fb = .resolved t ∧ now < t) ∧
    (∀ hh mm, tier1Scan (normText text) = none →
      tier2Scan (normText text) = some (hh, mm) → hh ≤ 23 → mm ≤ 59 →
      ∃ t, parse_datetime_in_text text now fb = .resolved t ∧ now < t) ∧
    (parse_datetime_in_text text now fb = .unresolved ↔
      tier1Scan (normText text) = none ∧ tier2Scan (normText text) = none ∧
        fb = none) := by
  refine ⟨?_, ?_, ?_⟩
  · intro n u h1 hn
    refine ⟨now + n * unitSeconds u, ?_, ?_⟩
    · simp [parse_datetime_in_text, h1]
    · have hu : 0 < unitSeconds u := by cases u <;> simp [unitSeconds]
      have := Nat.mul_pos hn hu
      omega
  · intro hh mm h1 h2 hle1 hle2
    have hcond : (hh ≤ 23 && mm ≤ 59) = true := by
      simp only [Bool.and_eq_true, decide_eq_true_eq]
      exact ⟨hle1, hle2⟩
    have hmod : now % 86400 < 86400 := Nat.mod_lt _ (by omega)
    have hdm : 86400 * (now / 86400) + now % 86400 = now := Nat.div_add_mod now 86400
    by_cases hc : startOfDay now + hh * 3600 + mm * 60 ≤ now
    · refine ⟨startOfDay now + hh * 3600 + mm * 60 + 86400, ?_, ?_⟩
      · simp [parse_datetime_in_text, h1, h2, hcond, hc]
      · simp only [startOfDay] at hc ⊢
        omega
    · refine ⟨startOfDay now + hh * 3600 + mm * 60, ?_, by omega⟩
      simp [parse_datetime_in_text, h1, h2, hcond, hc]
  · simp only [parse_datetime_in_text]
    cases ht1 : tier1Scan (normText text) with
    | some p =>
      obtain ⟨n, u⟩ := p
      simp
    | none =>
      cases ht2 : tier2Scan (normText text) with
      | some q =>
        obtain ⟨hh, mm⟩ := q
        by_cases hcond : (hh ≤ 23 && mm ≤ 59) = true
        · simp only [hcond, if_true]
          split <;> simp
        · simp only [Bool.not_eq_true] at hcond
          simp [hcond]
      | none =>
        cases fb with
        | some dt =>
          simp only []
          split <;> simp
        | none => simp

/-- C2 (witness): concrete future results delivered through the amended
theorem for a tier-1 and a tier-2 input. -/
theorem resolver_tiers_future_witness :
    (∃ t, parse_datetime_in_text (("en 5 minutos").toList) 1000 none =
      .resolved t ∧ 1000 < t) ∧
    (∃ t, parse_datetime_in_text (("a las 7").toList) 50000 none =
      .resolved t ∧ 50000 < t) :=
  ⟨(resolver_tiers_future (("en 5 minutos").toList) 1000 none).1 5
     TimeUnit.minutes (by decide) (by decide),
   (resolver_tiers_future (("a las 7").toList) 50000 none).2.1 7 0
     (by decide) (by decide) (by decide) (by decide)⟩

/-- C1: for every user, the sweep removes exactly the reminders whose
`remind_at` is ≤ `now`, returns them grouped by user id (users with none
due are omitted from the groups, per `setdefault`), and — when every stored
reminder carries a parseable `remind_at` — everything that remains is
strictly in the future. -/
theorem due_sweep_partitions (db : List (String × List Reminder)) (now : Nat)
    (h : ∀ p ∈ db, ∀ r ∈ p.2, (Reminder.remindAt r).isSome) :
    (get_due_reminders db now).1 =
      (db.map (fun p => (p.1, p.2.filter (isDueB now)))).filter
        (fun p => !p.2.isEmpty) ∧
    (get_due_reminders db now).2 =
      db.map (fun p => (p.1, p.2.filter (fun r => ! isDueB now r))) ∧
    (∀ p ∈ db, ∀ r ∈ p.2,
      (isDueB now r = true ↔ ∃ t, r.remindAt = some t ∧ t ≤ now)) ∧
    (∀ p ∈ (get_due_reminders db now).2, ∀ r ∈ p.2,
      ∃ t, r.remindAt = some t ∧ now < t) := by
  refine ⟨?_, ?_, ?_, ?_⟩
  · rw [get_due_reminders_eq]
  · rw [get_due_reminders_eq]
  · intro p hp r hr
    cases hra : r.remindAt with
    | some t => simp [isDueB, hra]
    | none => simp [isDueB, hra]
  · intro p hp r hr
    rw [get_due_reminders_eq] at hp
    simp only [List.mem_map] at hp
    obtain ⟨q, hq, rfl⟩ := hp
    simp only [List.mem_filter] at hr
    obtain ⟨hrq, hnd⟩ := hr
    have hsome := h q hq r hrq
    cases hra : r.remindAt with
    | none => rw [hra] at hsome; simp at hsome
    | some t =>
      refine ⟨t, rfl, ?_⟩
      simp only [isDueB, hra, Bool.not_eq_true'] at hnd
      simp only [decide_eq_false_iff_not] at hnd
      omega

/-- Concrete two-reminder store used by the sweep witnesses. -/
def sweepExampleDb : List (String × List Reminder) :=
  [(("ana"), [⟨("pagar").toList, some 50, 0, false⟩,
              ⟨("turno").toList, some 200, 10, false⟩])]

/-- C1 (witness): on a store with one elapsed and one future reminder at
`now = 100`, the sweep fires the elapsed one, keeps the future one, and the
theorem certifies the survivor's timestamp is strictly future. -/
theorem due_sweep_partitions_witness :
    (get_due_reminders sweepExampleDb 100).1 =
      [(("ana"), [⟨("pagar").toList, some 50, 0, false⟩])] ∧
    (get_due_reminders sweepExampleDb 100).2 =
      [(("ana"), [⟨("turno").toList, some 200, 10, false⟩])] ∧
    (∃ t, (Reminder.mk (("turno").toList) (some 200) 10 false).remindAt =
      some t ∧ 100 < t) :=
  ⟨by decide, by decide,
   (due_sweep_partitions sweepExampleDb 100 (by decide)).2.2.2
     ((("ana")), [⟨("turno").toList, some 200, 10, false⟩]) (by decide)
     ⟨("turno").toList, some 200, 10, false⟩ (by decide)⟩

/-- C10: a reminder whose `remind_datetime` is missing or unparseable is
kept in its user's collection by the sweep and never appears in any due
group, whatever `now` is. -/
theorem malformed_reminders_survive_sweep (db : List (String × List Reminder))
    (now : Nat) (p : String × List Reminder) (r : Reminder)
    (hp : p ∈ db) (hr : r ∈ p.2) (hm : r.remindAt = none) :
    ∃ rs', (p.1, rs') ∈ (get_due_reminders db now).2 ∧ r ∈ rs' ∧
      ∀ q ∈ (get_due_reminders db now).1, r ∉ q.2 := by
  have hnd : isDueB now r = false := by simp [isDueB, hm]
  refine ⟨p.2.filter (fun x => ! isDueB now x), ?_, ?_, ?_⟩
  · rw [get_due_reminders_eq]
    simp only [List.mem_map]
    exact ⟨p, hp, rfl⟩
  · simp [List.mem_filter, hr, hnd]
  · intro q hq
    rw [get_due_reminders_eq] at hq
    simp only [List.mem_filter, List.mem_map] at hq
    obtain ⟨⟨w, hw, rfl⟩, _⟩ := hq
    intro hcontra
    simp only [List.mem_filter] at hcontra
    rw [hnd] at hcontra
    exact absurd hcontra.2 (by simp)

/-- Concrete store with a malformed reminder for the C10 witness. -/
def malformedExampleDb : List (String × List Reminder) :=
  [(("bob"), [⟨("roto").toList, none, 0, false⟩,
              ⟨("pagar").toList, some 10, 0, false⟩])]

/-- C10 (witness): the malformed reminder survives a sweep at `now = 100`
while the elapsed well-formed one fires. -/
theorem malformed_reminders_survive_sweep_witness :
    (∃ rs', ((("bob") : String), rs') ∈ (get_due_reminders malformedExampleDb 100).2 ∧
      (Reminder.mk (("roto").toList) none 0 false) ∈ rs' ∧
      ∀ q ∈ (get_due_reminders malformedExampleDb 100).1,
        (Reminder.mk (("roto").toList) none 0 false) ∉ q.2) ∧
    (get_due_reminders malformedExampleDb 100).2 =
      [(("bob"), [⟨("roto").toList, none, 0, false⟩])] :=
  ⟨malformed_reminders_survive_sweep malformedExampleDb 100
     ((("bob")), [⟨("roto").toList, none, 0, false⟩,
                  ⟨("pagar").toList, some 10, 0, false⟩])
     ⟨("roto").toList, none, 0, false⟩ (by decide) (by decide) rfl,
   by decide⟩

/-- C5: the matcher's index list is exactly the entries (in original order,
strictly increasing) whose lowercased title contains some query token of
length ≥ 4, and the outcome is `noMatch`/`unique`/`ambiguous` according to
whether zero, one, or more entries match. -/
theorem entity_matcher_correct (rs : List Reminder) (text : List Char) :
    (∀ j, j ∈ enumIdxWhere (entryMatches (wordsOf text)) 0 rs ↔
      (j < rs.length ∧ ∃ w, w ∈ tokenize (text.map Char.toLower) ∧
        4 ≤ w.length ∧
        ∃ l r, (rs.getD j default).title.map Char.toLower = l ++ w ++ r)) ∧
    List.Pairwise (· < ·) (enumIdxWhere (entryMatches (wordsOf text)) 0 rs) ∧
    (enumIdxWhere (entryMatches (wordsOf text)) 0 rs = [] →
      entityMatch rs text = .noMatch) ∧
    (∀ i, enumIdxWhere (entryMatches (wordsOf text)) 0 rs = [i] →
      entityMatch rs text = .unique i) ∧
    (2 ≤ (enumIdxWhere (entryMatches (wordsOf text)) 0 rs).length →
      entityMatch rs text = .ambiguous
        (enumIdxWhere (entryMatches (wordsOf text)) 0 rs)) := by
  refine ⟨?_, enumIdxWhere_pairwise _ rs 0, ?_, ?_, ?_⟩
  · intro j
    rw [enumIdxWhere_mem]
    simp only [Nat.zero_le, true_and, Nat.sub_zero]
    constructor
    · rintro ⟨hlen, hmatch⟩
      refine ⟨hlen, ?_⟩
      simp only [entryMatches, List.any_eq_true] at hmatch
      obtain ⟨w, hw, hsub⟩ := hmatch
      simp only [wordsOf, List.mem_filter, decide_eq_true_eq] at hw
      obtain ⟨l, r, hlr⟩ := (hasSub_iff w _).1 hsub
      exact ⟨w, hw.1, hw.2, l, r, hlr⟩
    · rintro ⟨hlen, w, hwtok, hwlen, l, r, hlr⟩
      refine ⟨hlen, ?_⟩
      simp only [entryMatches, List.any_eq_true]
      refine ⟨w, ?_, (hasSub_iff w _).2 ⟨l, r, hlr⟩⟩
      simp only [wordsOf, List.mem_filter, decide_eq_true_eq]
      exact ⟨hwtok, hwlen⟩
  · intro hnil
    simp [entityMatch, hnil]
  · intro i hi
    simp [entityMatch, hi]
  · intro hlen
    cases hms : enumIdxWhere (entryMatches (wordsOf text)) 0 rs with
    | nil => rw [hms] at hlen; simp at hlen
    | cons a tl =>
      cases tl with
      | nil => rw [hms] at hlen; simp at hlen
      | cons b tl2 => simp [entityMatch, hms]

/-- The spec's own two-entry example store for the matcher witness. -/
def matcherExample : List Reminder :=
  [⟨("dentist appointment").toList, some 100, 0, false⟩,
   ⟨("eye doctor appointment").toList, some 200, 0, false⟩]

/-- C5 (witness): "appointment" is ambiguous between both entries in
original order; "dentist" uniquely selects the first. -/
theorem entity_matcher_correct_witness :
    entityMatch matcherExample (("appointment").toList) = .ambiguous [0, 1] ∧
    entityMatch matcherExample (("dentist").toList) = .unique 0 :=
  ⟨by rw [(entity_matcher_correct matcherExample
      (("appointment").toList)).2.2.2.2 (by decide)]; decide,
   (entity_matcher_correct matcherExample (("dentist").toList)).2.2.2.1 0
     (by decide)⟩

/-- C3: with a non-empty list, a text resolving to a strictly future time,
and zero title matches, the reschedule updates exactly the last (most
recently added) reminder: only its `remind_at` changes, every other entry
and every `fired` flag is untouched. -/
theorem reschedule_fallback_updates_last (rs : List Reminder) (now : Nat)
    (text : List Char) (fb : Option Nat) (dt : Nat)
    (h1 : rs ≠ [])
    (h2 : parse_datetime_in_text text now fb = .resolved dt)
    (h3 : now < dt)
    (h4 : enumIdxWhere (entryMatches (wordsOf text)) 0 rs = []) :
    (reschedule_reminder_by_text rs now text fb).1 =
      .updated (rs.length - 1) ∧
    (reschedule_reminder_by_text rs now text fb).2 =
      listModify rs (rs.length - 1) (fun r => { r with remindAt := some dt }) ∧
    (∀ i : Nat, ((reschedule_reminder_by_text rs now text fb).2)[i]? =
      (rs[i]?).map (fun r =>
        if i = rs.length - 1 then { r with remindAt := some dt } else r)) ∧
    (∀ i : Nat, (((reschedule_reminder_by_text rs now text fb).2)[i]?).map
        Reminder.reminded = (rs[i]?).map Reminder.reminded) := by
  have hempty : rs.isEmpty = false := by
    cases rs with
    | nil => exact absurd rfl h1
    | cons a l => rfl
  have hres : reschedule_reminder_by_text rs now text fb =
      (.updated (rs.length - 1),
       listModify rs (rs.length - 1)
         (fun r => { r with remindAt := some dt })) := by
    simp only [reschedule_reminder_by_text, hempty, Bool.false_eq_true,
      if_false, h2]
    rw [if_neg (Nat.not_le.mpr h3), h4]
  refine ⟨by rw [hres], by rw [hres], ?_, ?_⟩
  · intro i
    rw [hres]
    rw [listModify_getElem]
    by_cases hi : i = rs.length - 1
    · simp [hi]
    · cases hx : rs[i]? with
      | none => simp [hi, hx]
      | some r => simp [hi, hx]
  · intro i
    rw [hres, listModify_getElem]
    by_cases hi : i = rs.length - 1
    · cases hx : rs[i]? with
      | none => simp [hi, hx]
      | some r => simp [hi, hx]
    · simp [hi]

/-- Two-reminder store for the reschedule witness. -/
def reschedExample : List Reminder :=
  [⟨("pagar alquiler").toList, some 100, 0, false⟩,
   ⟨("dentista").toList, some 200, 0, true⟩]

/-- C3 (witness): "en 9 minutos" at `now = 100` matches no title, resolves
to 640, and moves only the last reminder ("dentista"), keeping its fired
flag. -/
theorem reschedule_fallback_updates_last_witness :
    (reschedule_reminder_by_text reschedExample 100
      (("en 9 minutos").toList) none).1 =
        .updated (reschedExample.length - 1) ∧
    (reschedule_reminder_by_text reschedExample 100
      (("en 9 minutos").toList) none).2 =
      [⟨("pagar alquiler").toList, some 100, 0, false⟩,
       ⟨("dentista").toList, some 640, 0, true⟩] :=
  ⟨(reschedule_fallback_updates_last reschedExample 100
      (("en 9 minutos").toList) none 640 (by decide) (by decide) (by decide)
      (by decide)).1,
   by decide⟩

/-- C6: a resolved timestamp at or before `now` makes both insertion and
reschedule fail with the past-time rejection and return the state exactly
as it was — nothing is appended, nothing is rewritten, nothing is clamped
forward. -/
theorem past_time_rejected_no_mutation (user : UserRec) (rs : List Reminder)
    (now dt dt' : Nat) (rawText te text : List Char)
    (titleO : Option (List Char)) (fb fb' : Option Nat) :
    (parse_datetime_in_text te now fb = .resolved dt → dt ≤ now →
      add_reminder_smart user now rawText titleO (some te) fb =
        (.pastRejected dt, user)) ∧
    (rs ≠ [] → parse_datetime_in_text text now fb' = .resolved dt' →
      dt' ≤ now →
      reschedule_reminder_by_text rs now text fb' = (.pastTime, rs)) := by
  constructor
  · intro hp hle
    simp only [add_reminder_smart, hp]
    rw [if_pos hle]
  · intro hne hp hle
    have hempty : rs.isEmpty = false := by
      cases rs with
      | nil => exact absurd rfl hne
      | cons a l => rfl
    simp only [reschedule_reminder_by_text, hempty, Bool.false_eq_true,
      if_false, hp]
    rw [if_pos hle]

/-- An empty user record, for the C6 witness. -/
def emptyUser : UserRec := ⟨[], [], [], [], none⟩

/-- C6 (witness): "en 0 minutos" resolves to exactly `now = 1000`, and both
the insertion and the reschedule reject it leaving their state untouched. -/
theorem past_time_rejected_no_mutation_witness :
    add_reminder_smart emptyUser 1000 (("recordame pagar en 0 minutos").toList)
      (some (("pagar").toList)) (some (("en 0 minutos").toList)) none =
      (.pastRejected 1000, emptyUser) ∧
    reschedule_reminder_by_text [⟨("pagar").toList, some 2000, 0, false⟩] 1000
      (("en 0 minutos").toList) none =
      (.pastTime, [⟨("pagar").toList, some 2000, 0, false⟩]) :=
  ⟨(past_time_rejected_no_mutation emptyUser
      [⟨("pagar").toList, some 2000, 0, false⟩] 1000 1000 1000
      (("recordame pagar en 0 minutos").toList) (("en 0 minutos").toList)
      (("en 0 minutos").toList) (some (("pagar").toList)) none none).1
      (by decide) (by decide),
   (past_time_rejected_no_mutation emptyUser
      [⟨("pagar").toList, some 2000, 0, false⟩] 1000 1000 1000
      (("recordame pagar en 0 minutos").toList) (("en 0 minutos").toList)
      (("en 0 minutos").toList) (some (("pagar").toList)) none none).2
      (by decide) (by decide) (by decide)⟩

/-- C7: `mark_done` recomputes the pending subsequence at call time; an
index outside `[1, pendingCount]` fails leaving the user record (tasks
included) unchanged, and an index inside marks exactly the `idx`-th pending
task done with a completion timestamp (that task is not-done beforehand and
has exactly `idx - 1` pending tasks before it). -/
theorem mark_done_pending_index (user : UserRec) (now : Nat) (idx : Int) :
    ((idx < 1 ∨ ((user.tasks.filter (fun t => ! t.done)).length : Int) < idx) →
      mark_done user now idx = (.outOfRange, user)) ∧
    (1 ≤ idx → idx ≤ ((user.tasks.filter (fun t => ! t.done)).length : Int) →
      ∃ j, mark_done user now idx =
        (.marked j,
         { user with
           tasks := listModify user.tasks j
             (fun t => { t with done := true, completedAt := some now }),
           history := user.history ++
             [.taskDone now (user.tasks.getD j default).title] }) ∧
        j < user.tasks.length ∧
        (user.tasks.getD j default).done = false ∧
        ((user.tasks.take j).filter (fun t => ! t.done)).length =
          (idx - 1).toNat) := by
  have hlen : (pendingIdx user.tasks).length =
      (user.tasks.filter (fun t => ! t.done)).length :=
    enumIdxWhere_length _ user.tasks 0
  constructor
  · intro hout
    simp only [mark_done]
    rw [if_pos (by rw [hlen]; exact hout)]
  · intro hin1 hin2
    have h2' : (idx - 1).toNat < (pendingIdx user.tasks).length := by
      rw [hlen]; omega
    obtain ⟨j, hj⟩ : ∃ j, (pendingIdx user.tasks)[(idx - 1).toNat]? = some j :=
      ⟨_, List.getElem?_eq_getElem h2'⟩
    obtain ⟨hj0, hjlt, hjp, hjcount⟩ :=
      enumIdxWhere_getElem (fun t => ! t.done) default user.tasks 0
        (idx - 1).toNat j hj
    simp only [Nat.sub_zero] at hjlt hjp hjcount
    have hreal : (pendingIdx user.tasks).getD (idx - 1).toNat 0 = j := by
      rw [List.getD_eq_getElem?_getD, hj]
      rfl
    refine ⟨j, ?_, hjlt, by simpa using hjp, hjcount⟩
    simp only [mark_done]
    rw [if_neg (by rw [hlen]; omega), hreal]

/-- A user with one completed and two pending tasks, for the C7 witness. -/
def tasksExample : UserRec :=
  ⟨[⟨("lavar").toList, 1, [], 0, true, some 5⟩,
    ⟨("pagar").toList, 2, [], 0, false, none⟩,
    ⟨("estudiar").toList, 3, [], 0, false, none⟩], [], [], [], none⟩

/-- C7 (witness): on a task list with two pending entries, indices 0 and 3
are rejected without mutation, and index 2 marks the second pending task
("estudiar") done with the completion timestamp. -/
theorem mark_done_pending_index_witness :
    mark_done tasksExample 999 0 = (.outOfRange, tasksExample) ∧
    mark_done tasksExample 999 3 = (.outOfRange, tasksExample) ∧
    mark_done tasksExample 999 2 =
      (.marked 2,
       ⟨[⟨("lavar").toList, 1, [], 0, true, some 5⟩,
         ⟨("pagar").toList, 2, [], 0, false, none⟩,
         ⟨("estudiar").toList, 3, [], 0, true, some 999⟩], [], [],
        [.taskDone 999 (("estudiar").toList)], none⟩) :=
  ⟨(mark_done_pending_index tasksExample 999 0).1 (Or.inl (by decide)),
   (mark_done_pending_index tasksExample 999 3).1 (Or.inr (by decide)),
   by decide⟩

/-- C8: when both explicit tiers fail and the generic fallback returns a
timestamp, that timestamp is advanced by exactly one day iff it is at or
before `now`, the text carries a bare clock marker (colon, "hs" or the
"a las" phrase), and the text names no explicit day ("mañana"/"ayer");
otherwise it is returned as-is, even when not in the future. -/
theorem fallback_day_adjustment (text : List Char) (now dt : Nat)
    (h1 : tier1Scan (normText text) = none)
    (h2 : tier2Scan (normText text) = none) :
    (dt ≤ now → dayMarker (normText text) = false →
      clockMarker (normText text) = true →
      parse_datetime_in_text text now (some dt) = .resolved (dt + 86400)) ∧
    (¬ (dt ≤ now ∧ dayMarker (normText text) = false ∧
        clockMarker (normText text) = true) →
      parse_datetime_in_text text now (some dt) = .resolved dt) := by
  constructor
  · intro hle hday hclock
    simp [parse_datetime_in_text, h1, h2, hle, hday, hclock]
  · intro hno
    have hcond : ¬ ((decide (dt ≤ now) && !dayMarker (normText text) &&
        clockMarker (normText text)) = true) := by
      simp only [Bool.and_eq_true, decide_eq_true_eq, Bool.not_eq_true']
      intro hc
      exact hno ⟨hc.1.1, hc.1.2, hc.2⟩
    simp [parse_datetime_in_text, h1, h2, hcond]

/-- C8 (witness): "hoy 10:30" reaches the fallback; a stale result 50 at
`now = 100` is pushed one day forward, while a future result 500 passes
through unchanged. -/
theorem fallback_day_adjustment_witness :
    parse_datetime_in_text (("hoy 10:30").toList) 100 (some 50) =
      .resolved (50 + 86400) ∧
    parse_datetime_in_text (("hoy 10:30").toList) 100 (some 500) =
      .resolved 500 :=
  ⟨(fallback_day_adjustment (("hoy 10:30").toList) 100 50 (by decide)
      (by decide)).1 (by decide) (by decide) (by decide),
   (fallback_day_adjustment (("hoy 10:30").toList) 100 500 (by decide)
      (by decide)).2 (by decide)⟩
